import Mathlib

/-!
Verification of `botwinick_utils` against its specification.

This file shallowly embeds the parts of the repository that the claims
concern:

* `botwinick_utils/platforms/bg_threads.py` — the background unique-job
  executor (`_JobExecutorEngine`, `bg_run`, `bg_run_unique_pre`,
  `bg_run_unique_post`, `bg_exec_shutdown`).  Since the lock makes every
  critical section atomic, the engine is embedded as a state machine whose
  atomic steps are the critical sections and the wrapper phases of submitted
  tasks.  The CPython `ThreadPoolExecutor` behaviour that the code relies on
  is modelled at its documented interface: `submit` raises `RuntimeError`
  after `shutdown`, `shutdown(cancel_futures=True)` cancels queued-but-not-
  started tasks, and `max_workers` validation (`max_workers <= 0`) raises
  `TypeError` on a string argument and `ValueError` on a non-positive int.
* `botwinick_utils/paths.py` — `hash_file_sha1` (the chunked hashing loop,
  with `hashlib.sha1` modelled at its interface: the digest is a function of
  the concatenation of all bytes passed to `update`), and the recursive
  helpers `_path_split` / `_common_path` with their mutable-default-argument
  accumulators, embedded against an explicit heap of Python list objects so
  that (non-)mutation of the shared default lists is expressible.
-/

deriving instance DecidableEq for Except

namespace BotwinickUtils

/-- Python exceptions that the embedded code can raise.  `jobError` stands for
an arbitrary exception raised by a submitted job body `fn`. -/
inductive PyExc where
  | runtimeError
  | typeError
  | valueError
  | keyError
  | jobError
deriving DecidableEq, Repr

/-- A Python value that can sit in `DEFAULT_BG_THREADS`: `os.getenv` yields
either the string value of the environment variable or the (int) default. -/
inductive PyVal where
  | vint (n : Int)
  | vstr (s : String)
deriving DecidableEq, Repr

/-- `os.getenv(key, default)`: the raw string value if the variable is set,
otherwise the default.  No parsing or conversion happens. -/
def getenv (env : String → Option String) (key : String) (default : PyVal) : PyVal :=
  match env key with
  | some v => PyVal.vstr v
  | none => default

/-- `DEFAULT_BG_THREADS = os.getenv('ENGINE_BACKGROUND_THREADS', 4)`, read once
at module import time (the environment is a parameter of the model). -/
def DEFAULT_BG_THREADS (env : String → Option String) : PyVal :=
  getenv env "ENGINE_BACKGROUND_THREADS" (PyVal.vint 4)

/-- CPython `ThreadPoolExecutor.__init__` validation of `max_workers`: the
check `max_workers <= 0` raises `TypeError` when `max_workers` is a `str`
(`'<=' not supported between instances of 'str' and 'int'`) and `ValueError`
when it is a non-positive int; otherwise the pool has `max_workers` workers. -/
def threadPoolMaxWorkers : PyVal → Except PyExc Nat
  | PyVal.vint n => if n ≤ 0 then Except.error PyExc.valueError else Except.ok n.toNat
  | PyVal.vstr _ => Except.error PyExc.typeError

/-- Dedup style of a unique job: `pre` releases the id reservation when the
job starts, `post` when it finishes. -/
inductive Style where
  | pre
  | post
deriving DecidableEq, Repr

/-- Lifecycle phase of a wrapper task submitted to the pool. -/
inductive Phase where
  | queued
  | running
  | done
  | cancelled
deriving DecidableEq, Repr

/-- A keyed wrapper task (`_run_pre_job` / `_run_post_job` closure) living on
the pool's queue or threads. -/
structure Task where
  jobId : String
  style : Style
  phase : Phase
deriving DecidableEq, Repr

/-- State of a `_JobExecutorEngine` together with its `ThreadPoolExecutor`:
`jobIds` is `self._job_ids`, `tasks` records every keyed wrapper task ever
submitted to the pool (with its current phase), `anonJobs` counts anonymous
`submit_job` submissions, and `poolShutdown` is the pool's shutdown flag. -/
structure EngineState where
  maxWorkers : Nat
  jobIds : Finset String
  tasks : List Task
  anonJobs : Nat
  poolShutdown : Bool
deriving DecidableEq

/-- A freshly constructed engine (`_JobExecutorEngine.__init__` after a
successful `ThreadPoolExecutor` construction with `w` workers). -/
def initEngine (w : Nat) : EngineState :=
  { maxWorkers := w, jobIds := ∅, tasks := [], anonJobs := 0, poolShutdown := false }

/-- `_JobExecutorEngine.__init__(max_workers)`: constructs the thread pool
(validating `max_workers`), an empty lock-guarded `_job_ids` set. -/
def engineInit (maxWorkersArg : PyVal) : Except PyExc EngineState :=
  (threadPoolMaxWorkers maxWorkersArg).map initEngine

/-- `submit_job(fn, *args, **kwargs)`: `bool(self._executor.submit(fn, ...))`.
After shutdown, `ThreadPoolExecutor.submit` raises `RuntimeError`; otherwise a
(truthy) `Future` is returned, so the call returns `True`. -/
def submit_job (s : EngineState) : EngineState × Except PyExc Bool :=
  if s.poolShutdown then (s, Except.error PyExc.runtimeError)
  else ({ s with anonJobs := s.anonJobs + 1 }, Except.ok true)

/-- `_submit_job(job_id, run_fn, fn, ...)`: under the lock, reject a duplicate
id with `False`; otherwise add the id to `_job_ids` and submit the wrapper to
the pool (which raises `RuntimeError` after shutdown — note that the id has
already been added at that point and is not removed on that path), returning
`True`. -/
def submitUniqueJob (s : EngineState) (style : Style) (jobId : String) :
    EngineState × Except PyExc Bool :=
  if jobId ∈ s.jobIds then (s, Except.ok false)
  else
    let s1 := { s with jobIds := insert jobId s.jobIds }
    if s1.poolShutdown then (s1, Except.error PyExc.runtimeError)
    else ({ s1 with tasks := s1.tasks ++ [⟨jobId, style, Phase.queued⟩] }, Except.ok true)

/-- `submit_unique_job_pre(job_id, fn, ...) = _submit_job(job_id, _run_pre_job, fn, ...)`. -/
def submit_unique_job_pre (s : EngineState) (jobId : String) :
    EngineState × Except PyExc Bool :=
  submitUniqueJob s Style.pre jobId

/-- `submit_unique_job_post(job_id, fn, ...) = _submit_job(job_id, _run_post_job, fn, ...)`. -/
def submit_unique_job_post (s : EngineState) (jobId : String) :
    EngineState × Except PyExc Bool :=
  submitUniqueJob s Style.post jobId

/-- `_run_pre_job(job_id, fn, ...)` as a whole: under the lock remove the id
(`set.remove` raises `KeyError` if absent, in which case `fn` never runs),
then run `fn`.  The returned `Bool` records whether `fn` was invoked;
`fnRaises` says whether `fn` raises (`fn` itself does not touch the engine's
bookkeeping state). -/
def run_pre_job (s : EngineState) (jobId : String) (fnRaises : Bool) :
    EngineState × Bool × Except PyExc Unit :=
  if jobId ∈ s.jobIds then
    ({ s with jobIds := s.jobIds.erase jobId }, true,
      if fnRaises then Except.error PyExc.jobError else Except.ok ())
  else (s, false, Except.error PyExc.keyError)

/-- `_run_post_job(job_id, fn, ...)` as a whole: run `fn` inside `try`, and in
the `finally` block remove the id under the lock — so the removal happens even
when `fn` raises, and `fn` always runs first (second component `true`).  If
the id is absent the `finally` block's `set.remove` raises `KeyError`
(replacing any exception of `fn`). -/
def run_post_job (s : EngineState) (jobId : String) (fnRaises : Bool) :
    EngineState × Bool × Except PyExc Unit :=
  if jobId ∈ s.jobIds then
    ({ s with jobIds := s.jobIds.erase jobId }, true,
      if fnRaises then Except.error PyExc.jobError else Except.ok ())
  else (s, true, Except.error PyExc.keyError)

/-- First half of `_run_pre_job` for task `i` holding `t`: the locked
`self._job_ids.remove(job_id)` as the task starts.  If the id is absent the
wrapper dies with `KeyError` before `fn` runs (phase `done`); otherwise the id
is released and `fn` starts running. -/
def startPreStep (s : EngineState) (i : Nat) (t : Task) : EngineState :=
  if t.jobId ∈ s.jobIds then
    { s with jobIds := s.jobIds.erase t.jobId,
             tasks := s.tasks.set i { t with phase := Phase.running } }
  else
    { s with tasks := s.tasks.set i { t with phase := Phase.done } }

/-- A queued `_run_post_job` wrapper starts: it begins running `fn`; the id
reservation is untouched at this point. -/
def startPostStep (s : EngineState) (i : Nat) (t : Task) : EngineState :=
  { s with tasks := s.tasks.set i { t with phase := Phase.running } }

/-- A running `_run_pre_job` wrapper finishes (its `fn` returns or raises);
the id was already released at start. -/
def finishPreStep (s : EngineState) (i : Nat) (t : Task) : EngineState :=
  { s with tasks := s.tasks.set i { t with phase := Phase.done } }

/-- A running `_run_post_job` wrapper finishes: whether or not its `fn`
raised, the `finally` block removes the id under the lock. -/
def finishPostStep (s : EngineState) (i : Nat) (t : Task) : EngineState :=
  { s with jobIds := s.jobIds.erase t.jobId,
           tasks := s.tasks.set i { t with phase := Phase.done } }

/-- `ThreadPoolExecutor.shutdown(cancel_futures=True)` cancels tasks that are
queued but not yet started. -/
def cancelQueuedTask (t : Task) : Task :=
  if t.phase = Phase.queued then { t with phase := Phase.cancelled } else t

/-- `_JobExecutorEngine.shutdown(wait, cancel_pending)`: sets the pool's
shutdown flag and, when `cancel_pending` holds, cancels queued tasks.  `wait`
only blocks the caller and has no effect on the state.  Never raises, and is
idempotent. -/
def engineShutdown (s : EngineState) (cancelPending : Bool) : EngineState :=
  { s with poolShutdown := true,
           tasks := if cancelPending then s.tasks.map cancelQueuedTask else s.tasks }

/-- The module-level state of `bg_threads.py`: the `_job_executor` singleton
(`None` until lazily constructed). -/
structure ModuleState where
  jobExecutor : Option EngineState
deriving DecidableEq

/-- `_get_exec()`: return the singleton, lazily constructing it on first use
with `DEFAULT_BG_THREADS` (construction itself can raise, see
`threadPoolMaxWorkers`). -/
def get_exec (m : ModuleState) (defaultWorkers : PyVal) :
    Except PyExc (ModuleState × EngineState) :=
  match m.jobExecutor with
  | some eng => Except.ok (m, eng)
  | none => (engineInit defaultWorkers).map fun eng => (⟨some eng⟩, eng)

/-- `bg_run(fn, *args, **kwargs) = _get_exec().submit_job(fn, ...)`. -/
def bg_run (m : ModuleState) (defaultWorkers : PyVal) :
    ModuleState × Except PyExc Bool :=
  match get_exec m defaultWorkers with
  | Except.error e => (m, Except.error e)
  | Except.ok (m1, eng) =>
    let r := submit_job eng
    ({ m1 with jobExecutor := some r.1 }, r.2)

/-- `bg_run_unique_pre(id, fn, ...) = _get_exec().submit_unique_job_pre(id, fn, ...)`. -/
def bg_run_unique_pre (m : ModuleState) (defaultWorkers : PyVal) (id : String) :
    ModuleState × Except PyExc Bool :=
  match get_exec m defaultWorkers with
  | Except.error e => (m, Except.error e)
  | Except.ok (m1, eng) =>
    let r := submit_unique_job_pre eng id
    ({ m1 with jobExecutor := some r.1 }, r.2)

/-- `bg_run_unique_post(id, fn, ...) = _get_exec().submit_unique_job_post(id, fn, ...)`. -/
def bg_run_unique_post (m : ModuleState) (defaultWorkers : PyVal) (id : String) :
    ModuleState × Except PyExc Bool :=
  match get_exec m defaultWorkers with
  | Except.error e => (m, Except.error e)
  | Except.ok (m1, eng) =>
    let r := submit_unique_job_post eng id
    ({ m1 with jobExecutor := some r.1 }, r.2)

/-- `bg_run_unique = bg_run_unique_post`. -/
def bg_run_unique (m : ModuleState) (defaultWorkers : PyVal) (id : String) :
    ModuleState × Except PyExc Bool :=
  bg_run_unique_post m defaultWorkers id

/-- `bg_exec_shutdown(wait, cancel_pending)`: a no-op when the singleton was
never constructed (explicitly, without triggering lazy construction),
otherwise `_job_executor.shutdown(...)`.  Never raises. -/
def bg_exec_shutdown (m : ModuleState) (wait cancelPending : Bool) :
    ModuleState × Except PyExc Unit :=
  match m.jobExecutor with
  | none => (m, Except.ok ())
  | some eng =>
    let _ := wait
    (⟨some (engineShutdown eng cancelPending)⟩, Except.ok ())

/-! ### The executor as a labelled transition system

Because every access to `_job_ids` happens inside `with self._lock`, the
interleaving of concurrent callers and worker threads is captured by a
small-step relation whose atomic steps are the critical sections of the
submission methods and of the wrapper tasks, plus the pool transitions
(a queued task starting, a running task finishing, shutdown).  The parameter
`safe` restricts, when `true`, to executions in which every unique submission
happens before shutdown. -/

/-- Whether a wrapper task currently holds its id reservation: a pre-style
task until it starts (a cancelled one never starts, so it holds it forever),
a post-style task until it is done. -/
def taskReserved (t : Task) : Bool :=
  match t.style with
  | Style.pre => t.phase == Phase.queued || t.phase == Phase.cancelled
  | Style.post => !(t.phase == Phase.done)

/-- The predicate selecting the tasks that currently reserve `id`. -/
def reservedWith (id : String) (t : Task) : Bool :=
  t.jobId == id && taskReserved t

/-- How many submitted tasks currently reserve `id`. -/
def reservedCount (s : EngineState) (id : String) : Nat :=
  (s.tasks.filter (reservedWith id)).length

/-- Atomic steps of the executor.  When `safe = true`, unique submissions are
only taken before shutdown. -/
inductive Step : Bool → EngineState → EngineState → Prop where
  | anon (safe : Bool) (s : EngineState) :
      Step safe s (submit_job s).1
  | unique (safe : Bool) (s : EngineState) (style : Style) (jobId : String)
      (hsafe : safe = true → s.poolShutdown = false) :
      Step safe s (submitUniqueJob s style jobId).1
  | startPre (safe : Bool) (s : EngineState) (i : Nat) (t : Task)
      (ht : s.tasks[i]? = some t) (hstyle : t.style = Style.pre)
      (hph : t.phase = Phase.queued) :
      Step safe s (startPreStep s i t)
  | startPost (safe : Bool) (s : EngineState) (i : Nat) (t : Task)
      (ht : s.tasks[i]? = some t) (hstyle : t.style = Style.post)
      (hph : t.phase = Phase.queued) :
      Step safe s (startPostStep s i t)
  | finishPre (safe : Bool) (s : EngineState) (i : Nat) (t : Task)
      (ht : s.tasks[i]? = some t) (hstyle : t.style = Style.pre)
      (hph : t.phase = Phase.running) :
      Step safe s (finishPreStep s i t)
  | finishPost (safe : Bool) (s : EngineState) (i : Nat) (t : Task)
      (ht : s.tasks[i]? = some t) (hstyle : t.style = Style.post)
      (hph : t.phase = Phase.running) :
      Step safe s (finishPostStep s i t)
  | shutdown (safe : Bool) (s : EngineState) (cancelPending : Bool) :
      Step safe s (engineShutdown s cancelPending)

/-- States reachable from a freshly constructed engine. -/
inductive Reachable (safe : Bool) : EngineState → Prop where
  | init (w : Nat) : Reachable safe (initEngine w)
  | step {s s' : EngineState} : Reachable safe s → Step safe s s' → Reachable safe s'

/-- The reservation invariant of the full system: at most one task reserves a
given id at any time, and a reserved id is in `_job_ids`. -/
def InvFull (s : EngineState) : Prop :=
  ∀ id : String, reservedCount s id ≤ 1 ∧ (1 ≤ reservedCount s id → id ∈ s.jobIds)

/-- The stronger invariant of the shutdown-respecting system: `_job_ids`
contains exactly the ids with a live reservation. -/
def InvSafe (s : EngineState) : Prop :=
  ∀ id : String, reservedCount s id ≤ 1 ∧ (id ∈ s.jobIds ↔ 1 ≤ reservedCount s id)

/-- No two distinct submitted tasks reserve `id` at the same time. -/
def NoOverlap (s : EngineState) (id : String) : Prop :=
  ∀ (i j : Nat) (ti tj : Task), i ≠ j →
    s.tasks[i]? = some ti → s.tasks[j]? = some tj →
    reservedWith id ti = true → reservedWith id tj = true → False

/-! ### `paths.py`: `hash_file_sha1`

`hashlib.sha1` is modelled at its documented interface: a hash object
accumulates the bytes passed to successive `update` calls, and `hexdigest()`
is a pure function (the SHA-1 hex digest, kept abstract as a parameter
`digest`) of the concatenation of all absorbed bytes. -/

/-- A `hashlib` hash object: the bytes fed to it so far. -/
structure Sha1Ctx where
  absorbed : List UInt8
deriving DecidableEq

/-- `hash_alg.update(buf)` absorbs `buf`. -/
def Sha1Ctx.update (h : Sha1Ctx) (buf : List UInt8) : Sha1Ctx :=
  ⟨h.absorbed ++ buf⟩

/-- `hash_alg.hexdigest()`: the digest of the absorbed byte stream. -/
def Sha1Ctx.hexdigest (digest : List UInt8 → String) (h : Sha1Ctx) : String :=
  digest h.absorbed

/-- The read loop of `hash_file_sha1`: `f.read(buffer_size)` yields the next
`buffer_size` bytes of the file (fewer at the end); the loop body runs while
the last read was non-empty. -/
def hashFileLoop (h : Sha1Ctx) (remaining : List UInt8) (bufferSize : Nat) : Sha1Ctx :=
  let buf := remaining.take bufferSize
  if hb : 0 < buf.length then
    hashFileLoop (h.update buf) (remaining.drop bufferSize) bufferSize
  else h
termination_by remaining.length
decreasing_by
  simp only [buf, List.length_take] at hb
  simp only [List.length_drop]
  omega

/-- `hash_file_sha1(file_target, buffer_size)`: stream the file's contents
through the hash in `buffer_size`-byte chunks and return the hex digest.  The
file is represented by its byte contents. -/
def hash_file_sha1 (digest : List UInt8 → String) (contents : List UInt8)
    (bufferSize : Nat) : String :=
  Sha1Ctx.hexdigest digest (hashFileLoop ⟨[]⟩ contents bufferSize)

/-! ### `paths.py`: `_path_split` and `_common_path`

These two recursive helpers use the mutable-default-argument idiom
(`rest=list()`, `common=list()`): the default list object is allocated once at
function-definition time and shared by every call that omits the argument.
To be able to state that the shared default lists are never mutated, the
embedding runs against an explicit heap (`Store`) of Python list-of-string
objects, addressed by allocation index; every list display, concatenation and
slice in the source allocates a fresh cell, exactly as in CPython.  Paths
(`str`, immutable in Python) are plain values. -/

/-- A Python string (list of characters). -/
abbrev PyStr := List Char

/-- `head.rstrip('/')`. -/
def rstripSlashes (l : PyStr) : PyStr :=
  (l.reverse.dropWhile (fun c => c = '/')).reverse

/-- `os.path.split(p)` (POSIX): split after the last `'/'`; the head keeps a
run of slashes only when it consists solely of slashes. -/
def ospSplit (p : PyStr) : PyStr × PyStr :=
  let tailRev := p.reverse.takeWhile (fun c => c ≠ '/')
  let head := p.take (p.length - tailRev.length)
  let head' :=
    if head ≠ [] ∧ ¬ (head.all (fun c => c = '/')) then rstripSlashes head else head
  (head', tailRev.reverse)

/-- The heap of Python list-of-string objects: cell `a` holds the list stored
at address `a`.  Reads of unallocated addresses are irrelevant (default `[]`). -/
structure Store where
  cells : List (List PyStr)
deriving DecidableEq

/-- Dereference address `a`. -/
def Store.read (σ : Store) (a : Nat) : List PyStr :=
  (σ.cells[a]?).getD []

/-- Allocate a fresh list object holding `v`; returns the new heap and the
fresh address. -/
def Store.alloc (σ : Store) (v : List PyStr) : Store × Nat :=
  (⟨σ.cells ++ [v]⟩, σ.cells.length)

/-- In-place update of the object at address `a` (what a Python list mutation
such as `append` would do; the translated functions never use it). -/
def Store.mutate (σ : Store) (a : Nat) (v : List PyStr) : Store :=
  ⟨σ.cells.set a v⟩

/-- `_path_split(p, rest)` against the heap: `rest` is the address of a list
object; `[t] + rest` reads `rest` and allocates a fresh list. -/
def pathSplitH (σ : Store) (p : PyStr) (rest : Nat) : Store × Nat :=
  if h1 : (ospSplit p).1.length < 1 then σ.alloc ((ospSplit p).2 :: σ.read rest)
  else if h2 : (ospSplit p).2.length < 1 then σ.alloc ((ospSplit p).1 :: σ.read rest)
  else
    let a := σ.alloc ((ospSplit p).2 :: σ.read rest)
    pathSplitH a.1 (ospSplit p).1 a.2
termination_by p.length
decreasing_by
  have hq : 1 ≤ (ospSplit p).2.length := Nat.not_lt.mp h2
  unfold ospSplit at hq ⊢
  simp only [List.length_reverse] at hq ⊢
  have htrlen : (p.reverse.takeWhile (fun c => c ≠ '/')).length ≤ p.length := by
    have := (List.takeWhile_sublist (l := p.reverse) (fun c => c ≠ '/')).length_le
    simpa using this
  have hhead : (p.take (p.length - (p.reverse.takeWhile (fun c => c ≠ '/')).length)).length
      = p.length - (p.reverse.takeWhile (fun c => c ≠ '/')).length := by
    simp [List.length_take]
  split
  · have hr : (rstripSlashes (p.take (p.length -
        (p.reverse.takeWhile (fun c => c ≠ '/')).length))).length
        ≤ (p.take (p.length - (p.reverse.takeWhile (fun c => c ≠ '/')).length)).length := by
      unfold rstripSlashes
      simp only [List.length_reverse]
      exact (List.dropWhile_sublist _).length_le.trans (by simp)
    omega
  · omega

/-- Reference (heap-free) recursion of `_path_split`, used to state that the
heap translation computes a pure function of its inputs. -/
def pathSplitPure (p : PyStr) (rest : List PyStr) : List PyStr :=
  if (ospSplit p).1.length < 1 then (ospSplit p).2 :: rest
  else if h2 : (ospSplit p).2.length < 1 then (ospSplit p).1 :: rest
  else pathSplitPure (ospSplit p).1 ((ospSplit p).2 :: rest)
termination_by p.length
decreasing_by
  have hq : 1 ≤ (ospSplit p).2.length := Nat.not_lt.mp h2
  unfold ospSplit at hq ⊢
  simp only [List.length_reverse] at hq ⊢
  have htrlen : (p.reverse.takeWhile (fun c => c ≠ '/')).length ≤ p.length := by
    have := (List.takeWhile_sublist (l := p.reverse) (fun c => c ≠ '/')).length_le
    simpa using this
  have hhead : (p.take (p.length - (p.reverse.takeWhile (fun c => c ≠ '/')).length)).length
      = p.length - (p.reverse.takeWhile (fun c => c ≠ '/')).length := by
    simp [List.length_take]
  split
  · have hr : (rstripSlashes (p.take (p.length -
        (p.reverse.takeWhile (fun c => c ≠ '/')).length))).length
        ≤ (p.take (p.length - (p.reverse.takeWhile (fun c => c ≠ '/')).length)).length := by
      unfold rstripSlashes
      simp only [List.length_reverse]
      exact (List.dropWhile_sublist _).length_le.trans (by simp)
    omega
  · omega

/-- `_common_path(l1, l2, common)` against the heap: all three parameters are
addresses of list objects; `l1[1:]`, `l2[1:]` and `common + [l1[0]]` each
allocate a fresh list (in the evaluation order of the call's arguments), and
the triple of result addresses is returned. -/
def commonPathH (σ : Store) (a1 a2 ac : Nat) : Store × Nat × Nat × Nat :=
  if h0 : (σ.read a1).length = 0 ∨ (σ.read a2).length = 0 then (σ, ac, a1, a2)
  else if (σ.read a1).headI ≠ (σ.read a2).headI then (σ, ac, a1, a2)
  else
    let t1 := σ.alloc ((σ.read a1).drop 1)
    let t2 := t1.1.alloc ((t1.1.read a2).drop 1)
    let t3 := t2.1.alloc ((t2.1.read ac) ++ [(t2.1.read a1).headI])
    commonPathH t3.1 t1.2 t2.2 t3.2
termination_by (σ.read a1).length
decreasing_by
  push_neg at h0
  simp only [Store.read, Store.alloc] at h0 ⊢
  rw [List.append_assoc, List.append_assoc, List.getElem?_append_right (Nat.le_refl _)]
  simp only [Nat.sub_self, List.singleton_append, List.getElem?_cons_zero, Option.getD_some,
    List.length_drop]
  omega

/-- Reference (heap-free) recursion of `_common_path`. -/
def commonPathPure (l1 l2 common : List PyStr) : List PyStr × List PyStr × List PyStr :=
  if h0 : l1.length = 0 ∨ l2.length = 0 then (common, l1, l2)
  else if l1.headI ≠ l2.headI then (common, l1, l2)
  else commonPathPure (l1.drop 1) (l2.drop 1) (common ++ [l1.headI])
termination_by l1.length
decreasing_by
  push_neg at h0
  simp only [List.length_drop]
  omega

/-- The heap as it stands right after `paths.py` is imported: the two default
list objects (`_path_split`'s `rest` at address 0, `_common_path`'s `common`
at address 1), both empty. -/
def pathsInitStore : Store := ⟨[[], []]⟩

/-- Address of `_path_split`'s default `rest` object. -/
def restDefaultAddr : Nat := 0

/-- Address of `_common_path`'s default `common` object. -/
def commonDefaultAddr : Nat := 1

/-- A call `_path_split(p)` that omits `rest`, so the shared default object is
passed. -/
def pathSplitDefaultCall (σ : Store) (p : PyStr) : Store × Nat :=
  pathSplitH σ p restDefaultAddr

/-- A call `_path_split(p, [])`: the caller builds a fresh empty list and
passes it. -/
def pathSplitExplicitCall (σ : Store) (p : PyStr) : Store × Nat :=
  let a := σ.alloc []
  pathSplitH a.1 p a.2

/-- A call `_common_path(l1, l2)` that omits `common`, so the shared default
object is passed. -/
def commonPathDefaultCall (σ : Store) (a1 a2 : Nat) : Store × Nat × Nat × Nat :=
  commonPathH σ a1 a2 commonDefaultAddr

/-- A call `_common_path(l1, l2, [])`: the caller builds a fresh empty list
and passes it. -/
def commonPathExplicitCall (σ : Store) (a1 a2 : Nat) : Store × Nat × Nat × Nat :=
  let a := σ.alloc []
  commonPathH a.1 a1 a2 a.2

/-! ## Theorems -/

/-- Claim C2 (status: code bug in the source).  `DEFAULT_BG_THREADS` is read
once from `ENGINE_BACKGROUND_THREADS`; when the variable is unset the default
int `4` is used and the lazily constructed pool has exactly 4 workers.  But
`os.getenv` is never parsed: when the variable is set — whether to an
unparsable string such as `"abc"` or even a perfectly numeric `"8"` — the raw
string reaches `ThreadPoolExecutor(max_workers=...)`, whose `max_workers <= 0`
check raises `TypeError`, instead of the spec's "default 4 if unparsable"
(and despite the `max_workers: int` annotation in the source). -/
theorem default_bg_threads_env_behavior :
    engineInit (DEFAULT_BG_THREADS (fun _ => none)) = Except.ok (initEngine 4) ∧
    (initEngine 4).maxWorkers = 4 ∧
    engineInit (DEFAULT_BG_THREADS
      (fun k => if k = "ENGINE_BACKGROUND_THREADS" then some "abc" else none))
      = Except.error PyExc.typeError ∧
    engineInit (DEFAULT_BG_THREADS
      (fun k => if k = "ENGINE_BACKGROUND_THREADS" then some "8" else none))
      = Except.error PyExc.typeError := by
  refine ⟨rfl, rfl, rfl, rfl⟩

/-- Claim C8 (status: confirmed).  `bg_exec_shutdown` on a never-constructed
executor is a no-op: it leaves the singleton unconstructed and raises nothing;
moreover no call of it ever raises, including a second shutdown right after a
first one (idempotent-safe). -/
theorem shutdown_noop_and_idempotent :
    ∀ (m : ModuleState) (w c w' c' : Bool),
    bg_exec_shutdown ⟨none⟩ w c = (⟨none⟩, Except.ok ()) ∧
    (bg_exec_shutdown m w c).2 = Except.ok () ∧
    (bg_exec_shutdown (bg_exec_shutdown m w c).1 w' c').2 = Except.ok () := by
  intro m w c w' c'
  refine ⟨rfl, ?_, ?_⟩
  · cases m with
    | mk ex => cases ex <;> rfl
  · cases m with
    | mk ex => cases ex <;> rfl

/-- Claim C5 (status: confirmed).  A `submit_unique_job_pre` or
`submit_unique_job_post` call whose id is currently reserved returns `False`,
raises nothing, submits nothing to the pool, and leaves the engine state —
in particular the reserved-id set — completely unchanged. -/
theorem duplicate_submission_rejected :
    ∀ (s : EngineState) (id : String), id ∈ s.jobIds →
    submit_unique_job_pre s id = (s, Except.ok false) ∧
    submit_unique_job_post s id = (s, Except.ok false) := by
  intro s id hid
  constructor <;>
    simp [submit_unique_job_pre, submit_unique_job_post, submitUniqueJob, hid]

/-- Witness for `duplicate_submission_rejected` at a concrete engine state
holding the reservation `"a"`. -/
theorem duplicate_submission_rejected_witness :
    "a" ∈ (⟨4, {"a"}, [], 0, false⟩ : EngineState).jobIds ∧
    submit_unique_job_pre ⟨4, {"a"}, [], 0, false⟩ "a"
      = (⟨4, {"a"}, [], 0, false⟩, Except.ok false) ∧
    submit_unique_job_post ⟨4, {"a"}, [], 0, false⟩ "a"
      = (⟨4, {"a"}, [], 0, false⟩, Except.ok false) := by
  refine ⟨by decide, ?_⟩
  exact duplicate_submission_rejected ⟨4, {"a"}, [], 0, false⟩ "a" (by decide)

/-- Claim C3 (status: confirmed).  A post-style wrapper whose `fn` raises
still removes the id from the reserved set (the removal sits in a `finally`
block), the job's exception propagates in the worker, and — the pool not
being shut down — a subsequent `submit_unique_job_post` under the same id is
accepted once the failed job has finished. -/
theorem post_job_releases_id_on_failure :
    ∀ (s : EngineState) (id : String), id ∈ s.jobIds →
    (run_post_job s id true).2.1 = true ∧
    id ∉ (run_post_job s id true).1.jobIds ∧
    (run_post_job s id true).2.2 = Except.error PyExc.jobError ∧
    (s.poolShutdown = false →
      (submit_unique_job_post (run_post_job s id true).1 id).2 = Except.ok true) := by
  intro s id hid
  refine ⟨by simp [run_post_job, hid], by simp [run_post_job, hid], by simp [run_post_job, hid], ?_⟩
  intro hsd
  simp [run_post_job, hid, submit_unique_job_post, submitUniqueJob, hsd]

/-- Witness for `post_job_releases_id_on_failure` at a concrete engine state
holding the reservation `"a"`. -/
theorem post_job_releases_id_on_failure_witness :
    "a" ∈ (⟨4, {"a"}, [⟨"a", Style.post, Phase.running⟩], 0, false⟩ : EngineState).jobIds ∧
    (run_post_job ⟨4, {"a"}, [⟨"a", Style.post, Phase.running⟩], 0, false⟩ "a" true).2.1 = true ∧
    "a" ∉ (run_post_job ⟨4, {"a"}, [⟨"a", Style.post, Phase.running⟩], 0, false⟩ "a" true).1.jobIds ∧
    (run_post_job ⟨4, {"a"}, [⟨"a", Style.post, Phase.running⟩], 0, false⟩ "a" true).2.2
      = Except.error PyExc.jobError ∧
    ((⟨4, {"a"}, [⟨"a", Style.post, Phase.running⟩], 0, false⟩ : EngineState).poolShutdown = false →
      (submit_unique_job_post
        (run_post_job ⟨4, {"a"}, [⟨"a", Style.post, Phase.running⟩], 0, false⟩ "a" true).1 "a").2
        = Except.ok true) := by
  refine ⟨by decide, ?_⟩
  exact post_job_releases_id_on_failure _ "a" (by decide)

/-- Claim C4 (status: confirmed).  A queued pre-style wrapper's very first
action is the locked removal of its id: right after the start step the id is
out of the reserved set while the task is only now `running` (its `fn` has
not finished), and a second `submit_unique_job_pre` under the same id is
already accepted. -/
theorem pre_job_releases_id_before_run :
    ∀ (s : EngineState) (i : Nat) (t : Task),
    s.tasks[i]? = some t → t.style = Style.pre → t.phase = Phase.queued →
    t.jobId ∈ s.jobIds → s.poolShutdown = false →
    t.jobId ∉ (startPreStep s i t).jobIds ∧
    (startPreStep s i t).tasks[i]? = some { t with phase := Phase.running } ∧
    (submit_unique_job_pre (startPreStep s i t) t.jobId).2 = Except.ok true := by
  intro s i t ht _ _ hid hsd
  have hlt : i < s.tasks.length := (List.getElem?_eq_some_iff.mp ht).1
  refine ⟨?_, ?_, ?_⟩
  · simp [startPreStep, hid, Finset.not_mem_erase]
  · simp [startPreStep, hid, List.getElem?_set, hlt]
  · simp [submit_unique_job_pre, submitUniqueJob, startPreStep, hid, hsd,
      Finset.not_mem_erase]

/-- Witness for `pre_job_releases_id_before_run` at a concrete engine state
with one queued pre-style task reserved under `"a"`. -/
theorem pre_job_releases_id_before_run_witness :
    (⟨4, {"a"}, [⟨"a", Style.pre, Phase.queued⟩], 0, false⟩ : EngineState).tasks[0]?
      = some ⟨"a", Style.pre, Phase.queued⟩ ∧
    "a" ∉ (startPreStep ⟨4, {"a"}, [⟨"a", Style.pre, Phase.queued⟩], 0, false⟩ 0
      ⟨"a", Style.pre, Phase.queued⟩).jobIds ∧
    (startPreStep ⟨4, {"a"}, [⟨"a", Style.pre, Phase.queued⟩], 0, false⟩ 0
      ⟨"a", Style.pre, Phase.queued⟩).tasks[0]? = some ⟨"a", Style.pre, Phase.running⟩ ∧
    (submit_unique_job_pre (startPreStep ⟨4, {"a"}, [⟨"a", Style.pre, Phase.queued⟩], 0, false⟩ 0
      ⟨"a", Style.pre, Phase.queued⟩) "a").2 = Except.ok true := by
  refine ⟨by decide, ?_⟩
  exact pre_job_releases_id_before_run _ 0 _ (by decide) rfl rfl (by decide) rfl

/-- Claim C1 (status: corrected; counterexample).  The claim says a
submission made after shutdown returns `False` without raising.  At the
concrete state reached by shutting the executor down, all three entry points
instead raise `RuntimeError` (CPython's pool rejection), and none returns
`False`. -/
theorem submit_after_shutdown_raises_at_concrete_state :
    (bg_run ⟨some (engineShutdown (initEngine 4) true)⟩ (PyVal.vint 4)).2
      = Except.error PyExc.runtimeError ∧
    (bg_run_unique_pre ⟨some (engineShutdown (initEngine 4) true)⟩ (PyVal.vint 4) "a").2
      = Except.error PyExc.runtimeError ∧
    (bg_run_unique_post ⟨some (engineShutdown (initEngine 4) true)⟩ (PyVal.vint 4) "a").2
      = Except.error PyExc.runtimeError ∧
    (bg_run ⟨some (engineShutdown (initEngine 4) true)⟩ (PyVal.vint 4)).2
      ≠ Except.ok false ∧
    (bg_run_unique_pre ⟨some (engineShutdown (initEngine 4) true)⟩ (PyVal.vint 4) "a").2
      ≠ Except.ok false ∧
    (bg_run_unique_post ⟨some (engineShutdown (initEngine 4) true)⟩ (PyVal.vint 4) "a").2
      ≠ Except.ok false := by
  refine ⟨rfl, rfl, rfl, by decide, by decide, by decide⟩

/-- Claim C1 as amended.  After shutdown, `bg_run` raises `RuntimeError`; a
unique submission under a *fresh* id also raises `RuntimeError` — and, the
id having been added before the failing pool submission, additionally leaves
the id reserved — while a unique submission under a currently reserved id
still returns `False` without raising.  No post-shutdown submission is ever
silently accepted (none returns `True`). -/
theorem submit_after_shutdown_behavior :
    ∀ (m : ModuleState) (eng : EngineState) (dw : PyVal) (id : String),
    m.jobExecutor = some eng → eng.poolShutdown = true →
    (bg_run m dw).2 = Except.error PyExc.runtimeError ∧
    (id ∉ eng.jobIds →
      (bg_run_unique_pre m dw id).2 = Except.error PyExc.runtimeError ∧
      (bg_run_unique_post m dw id).2 = Except.error PyExc.runtimeError ∧
      (∃ eng', (bg_run_unique_pre m dw id).1.jobExecutor = some eng' ∧ id ∈ eng'.jobIds)) ∧
    (id ∈ eng.jobIds →
      (bg_run_unique_pre m dw id).2 = Except.ok false ∧
      (bg_run_unique_post m dw id).2 = Except.ok false) := by
  intro m eng dw id hm hsd
  refine ⟨?_, ?_, ?_⟩
  · simp [bg_run, get_exec, hm, submit_job, hsd]
  · intro hid
    refine ⟨?_, ?_, ?_⟩
    · simp [bg_run_unique_pre, get_exec, hm, submit_unique_job_pre, submitUniqueJob, hid, hsd]
    · simp [bg_run_unique_post, get_exec, hm, submit_unique_job_post, submitUniqueJob, hid, hsd]
    · refine ⟨{ eng with jobIds := insert id eng.jobIds }, ?_, ?_⟩
      · simp [bg_run_unique_pre, get_exec, hm, submit_unique_job_pre, submitUniqueJob, hid, hsd]
      · exact Finset.mem_insert_self id eng.jobIds
  · intro hid
    constructor <;>
      simp [bg_run_unique_pre, bg_run_unique_post, get_exec, hm,
        submit_unique_job_pre, submit_unique_job_post, submitUniqueJob, hid]

/-- Witness for `submit_after_shutdown_behavior` at the concrete
shut-down singleton. -/
theorem submit_after_shutdown_behavior_witness :
    (ModuleState.mk (some (engineShutdown (initEngine 4) true))).jobExecutor
      = some (engineShutdown (initEngine 4) true) ∧
    (engineShutdown (initEngine 4) true).poolShutdown = true ∧
    (bg_run ⟨some (engineShutdown (initEngine 4) true)⟩ (PyVal.vint 4)).2
      = Except.error PyExc.runtimeError := by
  refine ⟨rfl, rfl, ?_⟩
  exact (submit_after_shutdown_behavior _ _ (PyVal.vint 4) "a" rfl rfl).1

/-! ### Reservation-counting helper lemmas -/

theorem length_filter_set (P : Task → Bool) :
    ∀ (l : List Task) (i : Nat) (t t' : Task), l[i]? = some t →
    ((l.set i t').filter P).length + (if P t then 1 else 0)
      = (l.filter P).length + (if P t' then 1 else 0) := by
  intro l
  induction l with
  | nil => intro i t t' h; simp at h
  | cons a tl ih =>
    intro i t t' h
    cases i with
    | zero =>
      simp only [List.getElem?_cons_zero, Option.some.injEq] at h
      subst h
      by_cases hPa : P a <;> by_cases hPt' : P t' <;>
        simp [List.filter_cons, hPa, hPt'] <;> omega
    | succ i' =>
      simp only [List.getElem?_cons_succ] at h
      have hih := ih i' t t' h
      by_cases hPa : P a <;> simp [List.filter_cons, hPa] <;> omega

theorem two_le_length_filter (P : Task → Bool) :
    ∀ (l : List Task) (i j : Nat) (a b : Task), i < j →
    l[i]? = some a → l[j]? = some b → P a = true → P b = true →
    2 ≤ (l.filter P).length := by
  intro l
  induction l with
  | nil => intro i j a b _ ha; simp at ha
  | cons x tl ih =>
    intro i j a b hij ha hb hPa hPb
    cases i with
    | zero =>
      simp only [List.getElem?_cons_zero, Option.some.injEq] at ha
      subst ha
      cases j with
      | zero => omega
      | succ j' =>
        simp only [List.getElem?_cons_succ] at hb
        obtain ⟨hlt, hget⟩ := List.getElem?_eq_some_iff.mp hb
        have hbmem : b ∈ tl := hget ▸ List.getElem_mem hlt
        have hbfil : b ∈ tl.filter P := List.mem_filter.mpr ⟨hbmem, hPb⟩
        have h1 : 1 ≤ (tl.filter P).length :=
          List.length_pos.mpr (List.ne_nil_of_mem hbfil)
        simp [List.filter_cons, hPa]
        omega
    | succ i' =>
      cases j with
      | zero => omega
      | succ j' =>
        simp only [List.getElem?_cons_succ] at ha hb
        have := ih i' j' a b (by omega) ha hb hPa hPb
        by_cases hPx : P x <;> simp [List.filter_cons, hPx] <;> omega

theorem one_le_length_filter_iff (P : Task → Bool) (l : List Task) :
    1 ≤ (l.filter P).length ↔ ∃ t ∈ l, P t = true := by
  constructor
  · intro h
    have hne : l.filter P ≠ [] := by
      intro hnil
      rw [hnil] at h
      simp at h
    obtain ⟨a, ha⟩ := List.exists_mem_of_ne_nil _ hne
    exact ⟨a, (List.mem_filter.mp ha).1, (List.mem_filter.mp ha).2⟩
  · rintro ⟨a, hmem, hPa⟩
    have : a ∈ l.filter P := List.mem_filter.mpr ⟨hmem, hPa⟩
    exact List.length_pos.mpr (List.ne_nil_of_mem this)

theorem reservedWith_queued (id jobId : String) (style : Style) :
    reservedWith id ⟨jobId, style, Phase.queued⟩ = (jobId == id) := by
  cases style <;> simp [reservedWith, taskReserved]

theorem reservedWith_running_pre (id jobId : String) :
    reservedWith id ⟨jobId, Style.pre, Phase.running⟩ = false := by
  simp [reservedWith, taskReserved]

theorem reservedWith_running_post (id jobId : String) :
    reservedWith id ⟨jobId, Style.post, Phase.running⟩ = (jobId == id) := by
  simp [reservedWith, taskReserved]

theorem reservedWith_done (id jobId : String) (style : Style) :
    reservedWith id ⟨jobId, style, Phase.done⟩ = false := by
  cases style <;> simp [reservedWith, taskReserved]

theorem reservedWith_cancelQueued (id : String) (t : Task) :
    reservedWith id (cancelQueuedTask t) = reservedWith id t := by
  obtain ⟨j, st, ph⟩ := t
  cases st <;> cases ph <;> rfl

theorem reservedCount_congr {s s' : EngineState} (ht : s'.tasks = s.tasks) (id : String) :
    reservedCount s' id = reservedCount s id := by
  unfold reservedCount
  rw [ht]

theorem length_filter_cancelQueued (id : String) (l : List Task) :
    ((l.map cancelQueuedTask).filter (reservedWith id)).length
      = (l.filter (reservedWith id)).length := by
  rw [List.filter_map, List.length_map]
  congr 1
  apply List.filter_congr
  intro t _
  simpa [Function.comp] using reservedWith_cancelQueued id t

theorem reservedCount_engineShutdown (s : EngineState) (c : Bool) (id : String) :
    reservedCount (engineShutdown s c) id = reservedCount s id := by
  unfold engineShutdown reservedCount
  cases c <;> simp [length_filter_cancelQueued]

theorem one_le_reservedCount_of_task {s : EngineState} {i : Nat} {t : Task}
    (ht : s.tasks[i]? = some t) {id : String} (hres : reservedWith id t = true) :
    1 ≤ reservedCount s id := by
  obtain ⟨hlt, hget⟩ := List.getElem?_eq_some_iff.mp ht
  have hmem : t ∈ s.tasks := hget ▸ List.getElem_mem hlt
  have : t ∈ s.tasks.filter (reservedWith id) := List.mem_filter.mpr ⟨hmem, hres⟩
  exact List.length_pos.mpr (List.ne_nil_of_mem this)

/-- Single-step preservation of the full-system reservation invariant. -/
theorem invFull_preserved {safe : Bool} {s s' : EngineState}
    (hs : InvFull s) (hstep : Step safe s s') : InvFull s' := by
  cases hstep with
  | anon =>
    intro id
    have h := hs id
    have ht : (submit_job s).1.tasks = s.tasks := by
      unfold submit_job
      split <;> rfl
    have hj : (submit_job s).1.jobIds = s.jobIds := by
      unfold submit_job
      split <;> rfl
    rw [reservedCount_congr ht, hj]
    exact h
  | unique style jobId hsafe =>
    by_cases hdup : jobId ∈ s.jobIds
    · simp only [submitUniqueJob, if_pos hdup]
      exact hs
    · by_cases hsd : s.poolShutdown
      · simp only [submitUniqueJob, if_neg hdup]
        rw [if_pos (show ({ s with jobIds := insert jobId s.jobIds }
            : EngineState).poolShutdown = true from hsd)]
        intro id
        obtain ⟨h1, h2⟩ := hs id
        refine ⟨?_, ?_⟩
        · show reservedCount s id ≤ 1
          exact h1
        · intro hge
          replace hge : 1 ≤ reservedCount s id := hge
          exact Finset.mem_insert_of_mem (h2 hge)
      · simp only [submitUniqueJob, if_neg hdup]
        rw [if_neg (show ¬ ({ s with jobIds := insert jobId s.jobIds }
            : EngineState).poolShutdown = true from hsd)]
        intro id
        obtain ⟨h1, h2⟩ := hs id
        unfold reservedCount at h1 h2
        have hcnt : ((s.tasks ++ [(⟨jobId, style, Phase.queued⟩ : Task)]).filter
              (reservedWith id)).length
            = (s.tasks.filter (reservedWith id)).length
              + (if reservedWith id ⟨jobId, style, Phase.queued⟩ then 1 else 0) := by
          rw [List.filter_append]
          simp only [List.length_append, List.filter_cons, List.filter_nil]
          split <;> simp [*]
        rw [reservedWith_queued] at hcnt
        by_cases hid : (jobId == id) = true
        · have hideq : id = jobId := (eq_of_beq hid).symm
          subst hideq
          have hc0 : (s.tasks.filter (reservedWith id)).length = 0 := by
            by_contra hc
            exact hdup (h2 (by omega))
          rw [if_pos hid] at hcnt
          refine ⟨?_, ?_⟩
          · show ((s.tasks ++ [(⟨id, style, Phase.queued⟩ : Task)]).filter
                (reservedWith id)).length ≤ 1
            omega
          · intro _
            show id ∈ insert id s.jobIds
            exact Finset.mem_insert_self id s.jobIds
        · rw [if_neg hid] at hcnt
          refine ⟨?_, ?_⟩
          · show ((s.tasks ++ [(⟨jobId, style, Phase.queued⟩ : Task)]).filter
                (reservedWith id)).length ≤ 1
            omega
          · intro hge
            replace hge : 1 ≤ ((s.tasks ++ [(⟨jobId, style, Phase.queued⟩ : Task)]).filter
                (reservedWith id)).length := hge
            show id ∈ insert jobId s.jobIds
            exact Finset.mem_insert_of_mem (h2 (by omega))
  | startPre i t ht hstyle hph =>
    obtain ⟨tj, tst, tph⟩ := t
    replace hstyle : tst = Style.pre := hstyle
    replace hph : tph = Phase.queued := hph
    subst hstyle
    subst hph
    by_cases hmem : tj ∈ s.jobIds
    · have hstep : startPreStep s i ⟨tj, Style.pre, Phase.queued⟩
          = { s with jobIds := s.jobIds.erase tj,
                     tasks := s.tasks.set i ⟨tj, Style.pre, Phase.running⟩ } := by
        unfold startPreStep
        rw [if_pos (show (⟨tj, Style.pre, Phase.queued⟩ : Task).jobId ∈ s.jobIds from hmem)]
      rw [hstep]
      intro id
      obtain ⟨h1, h2⟩ := hs id
      unfold reservedCount at h1 h2
      have hcnt := length_filter_set (reservedWith id) s.tasks i
        ⟨tj, Style.pre, Phase.queued⟩ ⟨tj, Style.pre, Phase.running⟩ ht
      rw [reservedWith_queued, reservedWith_running_pre] at hcnt
      rw [show (if (false : Bool) = true then 1 else 0) = 0 from rfl] at hcnt
      by_cases hid : (tj == id) = true
      · rw [if_pos hid] at hcnt
        refine ⟨?_, ?_⟩
        · show ((s.tasks.set i ⟨tj, Style.pre, Phase.running⟩).filter
              (reservedWith id)).length ≤ 1
          omega
        · intro hge
          replace hge : 1 ≤ ((s.tasks.set i ⟨tj, Style.pre, Phase.running⟩).filter
              (reservedWith id)).length := hge
          exact absurd hge (by omega)
      · rw [if_neg hid] at hcnt
        have hidne : id ≠ tj := fun he => hid (by rw [he]; exact beq_self_eq_true tj)
        refine ⟨?_, ?_⟩
        · show ((s.tasks.set i ⟨tj, Style.pre, Phase.running⟩).filter
              (reservedWith id)).length ≤ 1
          omega
        · intro hge
          replace hge : 1 ≤ ((s.tasks.set i ⟨tj, Style.pre, Phase.running⟩).filter
              (reservedWith id)).length := hge
          show id ∈ s.jobIds.erase tj
          exact Finset.mem_erase.mpr ⟨hidne, h2 (by omega)⟩
    · exfalso
      apply hmem
      exact (hs tj).2 (one_le_reservedCount_of_task ht
        (by rw [reservedWith_queued]; exact beq_self_eq_true tj))
  | startPost i t ht hstyle hph =>
    obtain ⟨tj, tst, tph⟩ := t
    replace hstyle : tst = Style.post := hstyle
    replace hph : tph = Phase.queued := hph
    subst hstyle
    subst hph
    intro id
    obtain ⟨h1, h2⟩ := hs id
    unfold reservedCount at h1 h2
    have hcnt := length_filter_set (reservedWith id) s.tasks i
      ⟨tj, Style.post, Phase.queued⟩ ⟨tj, Style.post, Phase.running⟩ ht
    rw [reservedWith_queued, reservedWith_running_post] at hcnt
    refine ⟨?_, ?_⟩
    · show ((s.tasks.set i ⟨tj, Style.post, Phase.running⟩).filter
          (reservedWith id)).length ≤ 1
      omega
    · intro hge
      replace hge : 1 ≤ ((s.tasks.set i ⟨tj, Style.post, Phase.running⟩).filter
          (reservedWith id)).length := hge
      show id ∈ s.jobIds
      exact h2 (by omega)
  | finishPre i t ht hstyle hph =>
    obtain ⟨tj, tst, tph⟩ := t
    replace hstyle : tst = Style.pre := hstyle
    replace hph : tph = Phase.running := hph
    subst hstyle
    subst hph
    intro id
    obtain ⟨h1, h2⟩ := hs id
    unfold reservedCount at h1 h2
    have hcnt := length_filter_set (reservedWith id) s.tasks i
      ⟨tj, Style.pre, Phase.running⟩ ⟨tj, Style.pre, Phase.done⟩ ht
    rw [reservedWith_running_pre, reservedWith_done] at hcnt
    rw [show (if (false : Bool) = true then 1 else 0) = 0 from rfl] at hcnt
    refine ⟨?_, ?_⟩
    · show ((s.tasks.set i ⟨tj, Style.pre, Phase.done⟩).filter
          (reservedWith id)).length ≤ 1
      omega
    · intro hge
      replace hge : 1 ≤ ((s.tasks.set i ⟨tj, Style.pre, Phase.done⟩).filter
          (reservedWith id)).length := hge
      show id ∈ s.jobIds
      exact h2 (by omega)
  | finishPost i t ht hstyle hph =>
    obtain ⟨tj, tst, tph⟩ := t
    replace hstyle : tst = Style.post := hstyle
    replace hph : tph = Phase.running := hph
    subst hstyle
    subst hph
    intro id
    obtain ⟨h1, h2⟩ := hs id
    unfold reservedCount at h1 h2
    have hcnt := length_filter_set (reservedWith id) s.tasks i
      ⟨tj, Style.post, Phase.running⟩ ⟨tj, Style.post, Phase.done⟩ ht
    rw [reservedWith_running_post, reservedWith_done] at hcnt
    rw [show (if (false : Bool) = true then 1 else 0) = 0 from rfl] at hcnt
    by_cases hid : (tj == id) = true
    · rw [if_pos hid] at hcnt
      refine ⟨?_, ?_⟩
      · show ((s.tasks.set i ⟨tj, Style.post, Phase.done⟩).filter
            (reservedWith id)).length ≤ 1
        omega
      · intro hge
        replace hge : 1 ≤ ((s.tasks.set i ⟨tj, Style.post, Phase.done⟩).filter
            (reservedWith id)).length := hge
        exact absurd hge (by omega)
    · rw [if_neg hid] at hcnt
      have hidne : id ≠ tj := fun he => hid (by rw [he]; exact beq_self_eq_true tj)
      refine ⟨?_, ?_⟩
      · show ((s.tasks.set i ⟨tj, Style.post, Phase.done⟩).filter
            (reservedWith id)).length ≤ 1
        omega
      · intro hge
        replace hge : 1 ≤ ((s.tasks.set i ⟨tj, Style.post, Phase.done⟩).filter
            (reservedWith id)).length := hge
        show id ∈ s.jobIds.erase tj
        exact Finset.mem_erase.mpr ⟨hidne, h2 (by omega)⟩
  | shutdown cancelPending =>
    intro id
    obtain ⟨h1, h2⟩ := hs id
    rw [reservedCount_engineShutdown]
    refine ⟨h1, ?_⟩
    intro hge
    show id ∈ s.jobIds
    exact h2 hge

/-- Every state reachable by the executor satisfies the full-system
reservation invariant. -/
theorem invFull_reachable {safe : Bool} {s : EngineState}
    (h : Reachable safe s) : InvFull s := by
  induction h with
  | init w =>
    intro id
    constructor
    · simp [reservedCount, initEngine]
    · intro hge
      simp [reservedCount, initEngine] at hge
  | step _ hstep ih => exact invFull_preserved ih hstep

theorem invSafe_invFull {s : EngineState} (h : InvSafe s) : InvFull s :=
  fun id => ⟨(h id).1, (h id).2.mpr⟩

/-- Single-step preservation of the exact-correspondence invariant, for steps
in which unique submissions happen only before shutdown. -/
theorem invSafe_preserved {s s' : EngineState}
    (hs : InvSafe s) (hstep : Step true s s') : InvSafe s' := by
  have hfull' : InvFull s' := invFull_preserved (invSafe_invFull hs) hstep
  intro id
  refine ⟨(hfull' id).1, ⟨fun hmem => ?_, (hfull' id).2⟩⟩
  revert hmem
  cases hstep with
  | anon =>
    intro hmem
    have ht : (submit_job s).1.tasks = s.tasks := by
      unfold submit_job
      split <;> rfl
    have hj : (submit_job s).1.jobIds = s.jobIds := by
      unfold submit_job
      split <;> rfl
    rw [hj] at hmem
    rw [reservedCount_congr ht]
    exact (hs id).2.mp hmem
  | unique style jobId hsafe =>
    have hsd := hsafe rfl
    by_cases hdup : jobId ∈ s.jobIds
    · simp only [submitUniqueJob, if_pos hdup]
      exact (hs id).2.mp
    · simp only [submitUniqueJob, if_neg hdup]
      rw [if_neg (show ¬ ({ s with jobIds := insert jobId s.jobIds }
          : EngineState).poolShutdown = true from by simp [hsd])]
      intro hmem
      replace hmem : id ∈ insert jobId s.jobIds := hmem
      have hcnt : ((s.tasks ++ [(⟨jobId, style, Phase.queued⟩ : Task)]).filter
            (reservedWith id)).length
          = (s.tasks.filter (reservedWith id)).length
            + (if reservedWith id ⟨jobId, style, Phase.queued⟩ then 1 else 0) := by
        rw [List.filter_append]
        simp only [List.length_append, List.filter_cons, List.filter_nil]
        split <;> simp [*]
      rw [reservedWith_queued] at hcnt
      show 1 ≤ ((s.tasks ++ [(⟨jobId, style, Phase.queued⟩ : Task)]).filter
          (reservedWith id)).length
      rcases Finset.mem_insert.mp hmem with heq | hold
      · subst heq
        rw [if_pos (beq_self_eq_true id)] at hcnt
        omega
      · have hold1 : 1 ≤ (s.tasks.filter (reservedWith id)).length := (hs id).2.mp hold
        have : (s.tasks.filter (reservedWith id)).length
            ≤ ((s.tasks ++ [(⟨jobId, style, Phase.queued⟩ : Task)]).filter
              (reservedWith id)).length := by
          split at hcnt <;> omega
        omega
  | startPre i t ht hstyle hph =>
    obtain ⟨tj, tst, tph⟩ := t
    replace hstyle : tst = Style.pre := hstyle
    replace hph : tph = Phase.queued := hph
    subst hstyle
    subst hph
    have hmemtj : tj ∈ s.jobIds :=
      (hs tj).2.mpr (one_le_reservedCount_of_task ht
        (by rw [reservedWith_queued]; exact beq_self_eq_true tj))
    have hstep : startPreStep s i ⟨tj, Style.pre, Phase.queued⟩
        = { s with jobIds := s.jobIds.erase tj,
                   tasks := s.tasks.set i ⟨tj, Style.pre, Phase.running⟩ } := by
      unfold startPreStep
      rw [if_pos (show (⟨tj, Style.pre, Phase.queued⟩ : Task).jobId ∈ s.jobIds from hmemtj)]
    rw [hstep]
    intro hmem
    replace hmem : id ∈ s.jobIds.erase tj := hmem
    obtain ⟨hne, hold⟩ := Finset.mem_erase.mp hmem
    have hold1 : 1 ≤ (s.tasks.filter (reservedWith id)).length := (hs id).2.mp hold
    have hcnt := length_filter_set (reservedWith id) s.tasks i
      ⟨tj, Style.pre, Phase.queued⟩ ⟨tj, Style.pre, Phase.running⟩ ht
    rw [reservedWith_queued, reservedWith_running_pre] at hcnt
    rw [if_neg (show ¬ (tj == id) = true from
      fun hb => hne ((eq_of_beq hb).symm))] at hcnt
    show 1 ≤ ((s.tasks.set i ⟨tj, Style.pre, Phase.running⟩).filter
        (reservedWith id)).length
    omega
  | startPost i t ht hstyle hph =>
    obtain ⟨tj, tst, tph⟩ := t
    replace hstyle : tst = Style.post := hstyle
    replace hph : tph = Phase.queued := hph
    subst hstyle
    subst hph
    intro hmem
    replace hmem : id ∈ s.jobIds := hmem
    have hold1 : 1 ≤ (s.tasks.filter (reservedWith id)).length := (hs id).2.mp hmem
    have hcnt := length_filter_set (reservedWith id) s.tasks i
      ⟨tj, Style.post, Phase.queued⟩ ⟨tj, Style.post, Phase.running⟩ ht
    rw [reservedWith_queued, reservedWith_running_post] at hcnt
    show 1 ≤ ((s.tasks.set i ⟨tj, Style.post, Phase.running⟩).filter
        (reservedWith id)).length
    omega
  | finishPre i t ht hstyle hph =>
    obtain ⟨tj, tst, tph⟩ := t
    replace hstyle : tst = Style.pre := hstyle
    replace hph : tph = Phase.running := hph
    subst hstyle
    subst hph
    intro hmem
    replace hmem : id ∈ s.jobIds := hmem
    have hold1 : 1 ≤ (s.tasks.filter (reservedWith id)).length := (hs id).2.mp hmem
    have hcnt := length_filter_set (reservedWith id) s.tasks i
      ⟨tj, Style.pre, Phase.running⟩ ⟨tj, Style.pre, Phase.done⟩ ht
    rw [reservedWith_running_pre, reservedWith_done] at hcnt
    rw [show (if (false : Bool) = true then 1 else 0) = 0 from rfl] at hcnt
    show 1 ≤ ((s.tasks.set i ⟨tj, Style.pre, Phase.done⟩).filter
        (reservedWith id)).length
    omega
  | finishPost i t ht hstyle hph =>
    obtain ⟨tj, tst, tph⟩ := t
    replace hstyle : tst = Style.post := hstyle
    replace hph : tph = Phase.running := hph
    subst hstyle
    subst hph
    intro hmem
    replace hmem : id ∈ s.jobIds.erase tj := hmem
    obtain ⟨hne, hold⟩ := Finset.mem_erase.mp hmem
    have hold1 : 1 ≤ (s.tasks.filter (reservedWith id)).length := (hs id).2.mp hold
    have hcnt := length_filter_set (reservedWith id) s.tasks i
      ⟨tj, Style.post, Phase.running⟩ ⟨tj, Style.post, Phase.done⟩ ht
    rw [reservedWith_running_post, reservedWith_done] at hcnt
    rw [if_neg (show ¬ (tj == id) = true from
      fun hb => hne ((eq_of_beq hb).symm))] at hcnt
    show 1 ≤ ((s.tasks.set i ⟨tj, Style.post, Phase.done⟩).filter
        (reservedWith id)).length
    omega
  | shutdown cancelPending =>
    intro hmem
    replace hmem : id ∈ s.jobIds := hmem
    rw [reservedCount_engineShutdown]
    exact (hs id).2.mp hmem

/-- Every state reachable without post-shutdown unique submissions satisfies
the exact-correspondence invariant. -/
theorem invSafe_reachable {s : EngineState} (h : Reachable true s) : InvSafe s := by
  induction h with
  | init w =>
    intro id
    refine ⟨by simp [reservedCount, initEngine], ?_, ?_⟩
    · intro hmem
      simp [initEngine] at hmem
    · intro hge
      simp [reservedCount, initEngine] at hge
  | step _ hstep ih => exact invSafe_preserved ih hstep

/-- Claim C7 (status: confirmed).  In every reachable state — even allowing
submissions after shutdown — at most one accepted task reserves a given id,
i.e. no two accepted jobs sharing an id are ever simultaneously reserved; the
reservation intervals of an id are therefore pairwise non-overlapping. -/
theorem reservations_never_overlap :
    ∀ (s : EngineState), Reachable false s →
    ∀ id : String, reservedCount s id ≤ 1 ∧ NoOverlap s id := by
  intro s hr id
  have h1 := (invFull_reachable hr id).1
  refine ⟨h1, ?_⟩
  intro i j ti tj hij hti htj hri hrj
  unfold reservedCount at h1
  rcases Nat.lt_or_ge i j with h | h
  · have := two_le_length_filter (reservedWith id) s.tasks i j ti tj h hti htj hri hrj
    omega
  · have hj : j < i := by omega
    have := two_le_length_filter (reservedWith id) s.tasks j i tj ti hj htj hti hrj hri
    omega

/-- Witness for `reservations_never_overlap` at the state reached by one
accepted pre-style submission. -/
theorem reservations_never_overlap_witness :
    Reachable false (submitUniqueJob (initEngine 4) Style.pre "a").1 ∧
    (reservedCount (submitUniqueJob (initEngine 4) Style.pre "a").1 "a" ≤ 1 ∧
      NoOverlap (submitUniqueJob (initEngine 4) Style.pre "a").1 "a") := by
  have hr : Reachable false (submitUniqueJob (initEngine 4) Style.pre "a").1 :=
    Reachable.step (Reachable.init 4)
      (Step.unique false (initEngine 4) Style.pre "a" (fun _ => rfl))
  exact ⟨hr, reservations_never_overlap _ hr "a"⟩

/-- Claim C6 (status: corrected; counterexample).  The claimed invariant —
an id is reserved iff an accepted job under it has not reached its release
point — fails on the reachable state obtained by shutting down and then
calling a unique submission with a fresh id: `_submit_job` adds the id to
`_job_ids` *before* the pool submission raises `RuntimeError`, so the id ends
up reserved with no accepted job at all. -/
theorem reserved_iff_unreleased_fails_after_shutdown :
    ¬ (∀ (s : EngineState), Reachable false s → ∀ id : String,
      (id ∈ s.jobIds ↔ ∃ t ∈ s.tasks, t.jobId = id ∧ taskReserved t = true)) := by
  intro hclaim
  have hr : Reachable false
      (submitUniqueJob (engineShutdown (initEngine 4) true) Style.pre "a").1 :=
    Reachable.step
      (Reachable.step (Reachable.init 4) (Step.shutdown false (initEngine 4) true))
      (Step.unique false (engineShutdown (initEngine 4) true) Style.pre "a"
        (fun h => Bool.noConfusion h))
  have hmem : "a" ∈ (submitUniqueJob (engineShutdown (initEngine 4) true)
      Style.pre "a").1.jobIds := by decide
  obtain ⟨t, hmemt, _⟩ := (hclaim _ hr "a").mp hmem
  have htasks : (submitUniqueJob (engineShutdown (initEngine 4) true)
      Style.pre "a").1.tasks = [] := rfl
  rw [htasks] at hmemt
  exact absurd hmemt (List.not_mem_nil t)

/-- Claim C6 as amended.  In every state reachable when all unique
submissions happen before shutdown, an id is in the reserved set iff some
submitted task under that id has not yet reached its release point — start
for pre-style tasks, completion for post-style tasks (a cancelled task never
reaches it). -/
theorem reserved_iff_unreleased_of_safe :
    ∀ (s : EngineState), Reachable true s → ∀ id : String,
    (id ∈ s.jobIds ↔ ∃ t ∈ s.tasks, t.jobId = id ∧ taskReserved t = true) := by
  intro s hr id
  rw [(invSafe_reachable hr id).2]
  unfold reservedCount
  rw [one_le_length_filter_iff]
  constructor
  · rintro ⟨t, hmem, hres⟩
    simp only [reservedWith, Bool.and_eq_true, beq_iff_eq] at hres
    exact ⟨t, hmem, hres.1, hres.2⟩
  · rintro ⟨t, hmem, hjeq, htr⟩
    refine ⟨t, hmem, ?_⟩
    simp [reservedWith, hjeq, htr]

/-- Witness for `reserved_iff_unreleased_of_safe` at the state reached by one
accepted post-style submission. -/
theorem reserved_iff_unreleased_of_safe_witness :
    Reachable true (submitUniqueJob (initEngine 4) Style.post "a").1 ∧
    ("a" ∈ (submitUniqueJob (initEngine 4) Style.post "a").1.jobIds ↔
      ∃ t ∈ (submitUniqueJob (initEngine 4) Style.post "a").1.tasks,
        t.jobId = "a" ∧ taskReserved t = true) := by
  have hr : Reachable true (submitUniqueJob (initEngine 4) Style.post "a").1 :=
    Reachable.step (Reachable.init 4)
      (Step.unique true (initEngine 4) Style.post "a" (fun _ => rfl))
  exact ⟨hr, reserved_iff_unreleased_of_safe _ hr "a"⟩

/-! ### `hash_file_sha1` -/

theorem hashFileLoop_absorbed :
    ∀ (h : Sha1Ctx) (remaining : List UInt8) (bufferSize : Nat), 0 < bufferSize →
    hashFileLoop h remaining bufferSize = ⟨h.absorbed ++ remaining⟩ := by
  intro h remaining bufferSize
  induction h, remaining, bufferSize using hashFileLoop.induct with
  | case1 h rem bs buf hb ih =>
    intro hbs
    rw [hashFileLoop]
    rw [dif_pos hb]
    rw [ih hbs]
    have : (Sha1Ctx.update h buf).absorbed = h.absorbed ++ buf := rfl
    rw [this, List.append_assoc]
    simp only [buf]
    rw [List.take_append_drop]
  | case2 h rem bs buf hb =>
    intro hbs
    rw [hashFileLoop]
    rw [dif_neg hb]
    simp only [buf, List.length_take] at hb
    have : rem = [] := by
      have := Nat.not_lt.mp hb
      rcases rem with _ | ⟨x, xs⟩
      · rfl
      · exfalso
        simp at this
        omega
    rw [this]
    simp

/-- Claim C9 (status: confirmed).  For every file contents and every positive
`buffer_size`, `hash_file_sha1` feeds the hash exactly the file's whole byte
stream, chunk by chunk, and returns the digest of the entire contents; in
particular the result does not depend on the chosen `buffer_size`. -/
theorem hash_file_sha1_digests_whole_contents :
    ∀ (digest : List UInt8 → String) (contents : List UInt8) (bufferSize : Nat),
    0 < bufferSize →
    hash_file_sha1 digest contents bufferSize = digest contents := by
  intro digest contents bufferSize hbs
  unfold hash_file_sha1
  rw [hashFileLoop_absorbed ⟨[]⟩ contents bufferSize hbs]
  simp [Sha1Ctx.hexdigest]

/-- Witness for `hash_file_sha1_digests_whole_contents` at a concrete file
and buffer size. -/
theorem hash_file_sha1_digests_whole_contents_witness :
    0 < 2 ∧ hash_file_sha1 (fun l => toString l.length) [1, 2, 3] 2
      = (fun l => toString l.length) [1, 2, 3] :=
  ⟨by decide, hash_file_sha1_digests_whole_contents (fun l => toString l.length) [1, 2, 3] 2
    (by decide)⟩

/-! ### `_path_split` / `_common_path` heap lemmas -/

theorem Store.alloc_length (σ : Store) (v : List PyStr) :
    (σ.alloc v).1.cells.length = σ.cells.length + 1 := by
  simp [Store.alloc]

theorem Store.read_alloc (σ : Store) (v : List PyStr) (a : Nat) :
    (σ.alloc v).1.read a = if a = σ.cells.length then v else σ.read a := by
  unfold Store.alloc Store.read
  by_cases h : a = σ.cells.length
  · subst h
    simp [List.getElem?_concat_length]
  · rw [if_neg h]
    rcases Nat.lt_or_ge a σ.cells.length with hlt | hge
    · rw [List.getElem?_append_left hlt]
    · have h1 : σ.cells[a]? = none := List.getElem?_eq_none hge
      have h2 : (σ.cells ++ [v])[a]? = none := by
        apply List.getElem?_eq_none
        simp only [List.length_append, List.length_cons, List.length_nil]
        omega
      rw [h1, h2]

theorem Store.read_alloc_self (σ : Store) (v : List PyStr) :
    (σ.alloc v).1.read (σ.alloc v).2 = v := by
  rw [show (σ.alloc v).2 = σ.cells.length from rfl, Store.read_alloc]
  simp

theorem Store.read_alloc_lt (σ : Store) (v : List PyStr) (a : Nat)
    (h : a < σ.cells.length) :
    (σ.alloc v).1.read a = σ.read a := by
  rw [Store.read_alloc, if_neg (by omega)]

/-- The heap translation of `_path_split` computes the reference recursion on
the value stored at `rest`, only ever allocates (all pre-existing list
objects, the shared default included, are untouched), and only grows the
heap. -/
theorem pathSplitH_spec :
    ∀ (σ : Store) (p : PyStr) (rest : Nat),
    (pathSplitH σ p rest).1.read (pathSplitH σ p rest).2
      = pathSplitPure p (σ.read rest) ∧
    (∀ a, a < σ.cells.length → (pathSplitH σ p rest).1.read a = σ.read a) ∧
    σ.cells.length ≤ (pathSplitH σ p rest).1.cells.length := by
  intro σ p rest
  induction σ, p, rest using pathSplitH.induct with
  | case1 σ p rest h1 =>
    rw [pathSplitH, dif_pos h1, pathSplitPure, if_pos h1]
    refine ⟨Store.read_alloc_self σ _, ?_, ?_⟩
    · intro a ha
      exact Store.read_alloc_lt σ _ a ha
    · rw [Store.alloc_length]
      omega
  | case2 σ p rest h1 h2 =>
    rw [pathSplitH, dif_neg h1, dif_pos h2, pathSplitPure, if_neg h1, dif_pos h2]
    refine ⟨Store.read_alloc_self σ _, ?_, ?_⟩
    · intro a ha
      exact Store.read_alloc_lt σ _ a ha
    · rw [Store.alloc_length]
      omega
  | case3 σ p rest h1 h2 a ih =>
    rw [pathSplitH, dif_neg h1, dif_neg h2, pathSplitPure, if_neg h1, dif_neg h2]
    simp only [a] at ih ⊢
    obtain ⟨ihv, ihf, ihl⟩ := ih
    refine ⟨?_, ?_, ?_⟩
    · rw [ihv, Store.read_alloc_self]
    · intro b hb
      rw [ihf b (by rw [Store.alloc_length]; omega)]
      exact Store.read_alloc_lt σ _ b hb
    · rw [Store.alloc_length] at ihl
      omega

/-- The heap translation of `_common_path` computes the reference recursion
on the values stored at its three argument addresses, only ever allocates
(all pre-existing list objects are untouched), and only grows the heap. -/
theorem commonPathH_spec :
    ∀ (σ : Store) (a1 a2 ac : Nat),
    a1 < σ.cells.length → a2 < σ.cells.length → ac < σ.cells.length →
    (((commonPathH σ a1 a2 ac).1.read (commonPathH σ a1 a2 ac).2.1,
      (commonPathH σ a1 a2 ac).1.read (commonPathH σ a1 a2 ac).2.2.1,
      (commonPathH σ a1 a2 ac).1.read (commonPathH σ a1 a2 ac).2.2.2)
      = commonPathPure (σ.read a1) (σ.read a2) (σ.read ac)) ∧
    (∀ a, a < σ.cells.length → (commonPathH σ a1 a2 ac).1.read a = σ.read a) ∧
    σ.cells.length ≤ (commonPathH σ a1 a2 ac).1.cells.length := by
  intro σ a1 a2 ac
  induction σ, a1, a2, ac using commonPathH.induct with
  | case1 σ a1 a2 ac h0 =>
    intro _ _ _
    rw [commonPathH, dif_pos h0]
    rw [commonPathPure, dif_pos h0]
    exact ⟨rfl, fun a _ => rfl, Nat.le_refl _⟩
  | case2 σ a1 a2 ac h0 hne =>
    intro _ _ _
    rw [commonPathH, dif_neg h0, if_pos hne]
    rw [commonPathPure, dif_neg h0, if_pos hne]
    exact ⟨rfl, fun a _ => rfl, Nat.le_refl _⟩
  | case3 σ a1 a2 ac h0 hne t1 t2 t3 ih =>
    intro hv1 hv2 hvc
    have hL1 : t1.1.cells.length = σ.cells.length + 1 := Store.alloc_length σ _
    have hL2 : t2.1.cells.length = σ.cells.length + 2 := by
      rw [show t2.1.cells.length = t1.1.cells.length + 1 from Store.alloc_length t1.1 _, hL1]
    have hL3 : t3.1.cells.length = σ.cells.length + 3 := by
      rw [show t3.1.cells.length = t2.1.cells.length + 1 from Store.alloc_length t2.1 _, hL2]
    have haddr1 : t1.2 = σ.cells.length := rfl
    have haddr2 : t2.2 = σ.cells.length + 1 := hL1
    have haddr3 : t3.2 = σ.cells.length + 2 := hL2
    have hpre : ∀ a, a < σ.cells.length → t3.1.read a = σ.read a := by
      intro a ha
      have s3 : t3.1.read a = t2.1.read a :=
        Store.read_alloc_lt t2.1 _ a (by rw [hL2]; omega)
      have s2 : t2.1.read a = t1.1.read a :=
        Store.read_alloc_lt t1.1 _ a (by rw [hL1]; omega)
      have s1 : t1.1.read a = σ.read a := Store.read_alloc_lt σ _ a ha
      rw [s3, s2, s1]
    have hv1' : t3.1.read t1.2 = (σ.read a1).drop 1 := by
      have s3 : t3.1.read t1.2 = t2.1.read t1.2 :=
        Store.read_alloc_lt t2.1 _ t1.2 (by rw [haddr1, hL2]; omega)
      have s2 : t2.1.read t1.2 = t1.1.read t1.2 :=
        Store.read_alloc_lt t1.1 _ t1.2 (by rw [haddr1, hL1]; omega)
      have s1 : t1.1.read t1.2 = (σ.read a1).drop 1 := Store.read_alloc_self σ _
      rw [s3, s2, s1]
    have hv2' : t3.1.read t2.2 = (σ.read a2).drop 1 := by
      have s3 : t3.1.read t2.2 = t2.1.read t2.2 :=
        Store.read_alloc_lt t2.1 _ t2.2 (by rw [haddr2, hL2]; omega)
      have s2 : t2.1.read t2.2 = (t1.1.read a2).drop 1 := Store.read_alloc_self t1.1 _
      have s1 : t1.1.read a2 = σ.read a2 := Store.read_alloc_lt σ _ a2 hv2
      rw [s3, s2, s1]
    have hv3' : t3.1.read t3.2 = σ.read ac ++ [(σ.read a1).headI] := by
      have s3 : t3.1.read t3.2 = t2.1.read ac ++ [(t2.1.read a1).headI] :=
        Store.read_alloc_self t2.1 _
      have sac : t2.1.read ac = σ.read ac := by
        have u2 : t2.1.read ac = t1.1.read ac :=
          Store.read_alloc_lt t1.1 _ ac (by rw [hL1]; omega)
        have u1 : t1.1.read ac = σ.read ac := Store.read_alloc_lt σ _ ac hvc
        rw [u2, u1]
      have sa1 : t2.1.read a1 = σ.read a1 := by
        have u2 : t2.1.read a1 = t1.1.read a1 :=
          Store.read_alloc_lt t1.1 _ a1 (by rw [hL1]; omega)
        have u1 : t1.1.read a1 = σ.read a1 := Store.read_alloc_lt σ _ a1 hv1
        rw [u2, u1]
      rw [s3, sac, sa1]
    obtain ⟨ihv, ihf, ihl⟩ := ih (by rw [haddr1, hL3]; omega) (by rw [haddr2, hL3]; omega)
      (by rw [haddr3, hL3]; omega)
    have hpure : commonPathPure (σ.read a1) (σ.read a2) (σ.read ac)
        = commonPathPure ((σ.read a1).drop 1) ((σ.read a2).drop 1)
          (σ.read ac ++ [(σ.read a1).headI]) := by
      conv_lhs => rw [commonPathPure]
      rw [dif_neg h0, if_neg hne]
    refine ⟨?_, ?_, ?_⟩
    · rw [commonPathH, dif_neg h0, if_neg hne]
      show ((commonPathH t3.1 t1.2 t2.2 t3.2).1.read (commonPathH t3.1 t1.2 t2.2 t3.2).2.1,
          (commonPathH t3.1 t1.2 t2.2 t3.2).1.read (commonPathH t3.1 t1.2 t2.2 t3.2).2.2.1,
          (commonPathH t3.1 t1.2 t2.2 t3.2).1.read (commonPathH t3.1 t1.2 t2.2 t3.2).2.2.2)
          = commonPathPure (σ.read a1) (σ.read a2) (σ.read ac)
      rw [ihv, hv1', hv2', hv3', hpure]
    · intro a ha
      rw [commonPathH, dif_neg h0, if_neg hne]
      show (commonPathH t3.1 t1.2 t2.2 t3.2).1.read a = σ.read a
      rw [ihf a (by rw [hL3]; omega), hpre a ha]
    · rw [commonPathH, dif_neg h0, if_neg hne]
      show σ.cells.length ≤ (commonPathH t3.1 t1.2 t2.2 t3.2).1.cells.length
      rw [hL3] at ihl
      omega

/-- Claim C10 (status: confirmed).  The shared mutable default-argument lists
of `_path_split` and `_common_path` are never mutated: on any heap in which
the two default objects are empty, a call omitting the accumulator returns
the same value as a call passing a fresh `[]`, all pre-existing list objects
(the defaults included) are unchanged afterwards, and a repeated defaulted
call with the same input returns the same value — no state is carried across
calls through the default lists. -/
theorem default_accumulators_unmutated :
    ∀ (σ : Store) (p : PyStr) (a1 a2 : Nat),
    σ.read restDefaultAddr = [] → σ.read commonDefaultAddr = [] →
    restDefaultAddr < σ.cells.length → commonDefaultAddr < σ.cells.length →
    a1 < σ.cells.length → a2 < σ.cells.length →
    ((pathSplitDefaultCall σ p).1.read (pathSplitDefaultCall σ p).2
      = (pathSplitExplicitCall σ p).1.read (pathSplitExplicitCall σ p).2) ∧
    ((pathSplitDefaultCall σ p).1.read restDefaultAddr = [] ∧
      (pathSplitDefaultCall σ p).1.read commonDefaultAddr = [] ∧
      (∀ a, a < σ.cells.length → (pathSplitDefaultCall σ p).1.read a = σ.read a)) ∧
    ((pathSplitDefaultCall (pathSplitDefaultCall σ p).1 p).1.read
        (pathSplitDefaultCall (pathSplitDefaultCall σ p).1 p).2
      = (pathSplitDefaultCall σ p).1.read (pathSplitDefaultCall σ p).2) ∧
    (((commonPathDefaultCall σ a1 a2).1.read (commonPathDefaultCall σ a1 a2).2.1,
        (commonPathDefaultCall σ a1 a2).1.read (commonPathDefaultCall σ a1 a2).2.2.1,
        (commonPathDefaultCall σ a1 a2).1.read (commonPathDefaultCall σ a1 a2).2.2.2)
      = ((commonPathExplicitCall σ a1 a2).1.read (commonPathExplicitCall σ a1 a2).2.1,
          (commonPathExplicitCall σ a1 a2).1.read (commonPathExplicitCall σ a1 a2).2.2.1,
          (commonPathExplicitCall σ a1 a2).1.read (commonPathExplicitCall σ a1 a2).2.2.2)) ∧
    ((commonPathDefaultCall σ a1 a2).1.read restDefaultAddr = [] ∧
      (commonPathDefaultCall σ a1 a2).1.read commonDefaultAddr = [] ∧
      (∀ a, a < σ.cells.length → (commonPathDefaultCall σ a1 a2).1.read a = σ.read a)) := by
  intro σ p a1 a2 hrest hcom hlt0 hlt1 hlta1 hlta2
  obtain ⟨psv, psf, psl⟩ := pathSplitH_spec σ p restDefaultAddr
  obtain ⟨pev, _, _⟩ := pathSplitH_spec (σ.alloc []).1 p (σ.alloc []).2
  obtain ⟨cdv, cdf, _⟩ := commonPathH_spec σ a1 a2 commonDefaultAddr hlta1 hlta2 hlt1
  obtain ⟨cev, _, _⟩ := commonPathH_spec (σ.alloc []).1 a1 a2 (σ.alloc []).2
    (by rw [Store.alloc_length]; omega) (by rw [Store.alloc_length]; omega)
    (by rw [show ((σ.alloc ([] : List PyStr)).2 : Nat) = σ.cells.length from rfl,
      Store.alloc_length]; omega)
  refine ⟨?_, ⟨?_, ?_, ?_⟩, ?_, ?_, ⟨?_, ?_, ?_⟩⟩
  · show (pathSplitH σ p restDefaultAddr).1.read (pathSplitH σ p restDefaultAddr).2
      = (pathSplitH (σ.alloc []).1 p (σ.alloc []).2).1.read
        (pathSplitH (σ.alloc []).1 p (σ.alloc []).2).2
    rw [psv, pev, hrest, Store.read_alloc_self]
  · show (pathSplitH σ p restDefaultAddr).1.read restDefaultAddr = []
    rw [psf restDefaultAddr hlt0, hrest]
  · show (pathSplitH σ p restDefaultAddr).1.read commonDefaultAddr = []
    rw [psf commonDefaultAddr hlt1, hcom]
  · exact psf
  · obtain ⟨psv2, _, _⟩ := pathSplitH_spec (pathSplitDefaultCall σ p).1 p restDefaultAddr
    show (pathSplitH (pathSplitDefaultCall σ p).1 p restDefaultAddr).1.read
        (pathSplitH (pathSplitDefaultCall σ p).1 p restDefaultAddr).2
      = (pathSplitH σ p restDefaultAddr).1.read (pathSplitH σ p restDefaultAddr).2
    rw [psv2, psv, hrest]
    have : (pathSplitDefaultCall σ p).1.read restDefaultAddr = [] := by
      show (pathSplitH σ p restDefaultAddr).1.read restDefaultAddr = []
      rw [psf restDefaultAddr hlt0, hrest]
    rw [this]
  · show ((commonPathH σ a1 a2 commonDefaultAddr).1.read
          (commonPathH σ a1 a2 commonDefaultAddr).2.1,
        (commonPathH σ a1 a2 commonDefaultAddr).1.read
          (commonPathH σ a1 a2 commonDefaultAddr).2.2.1,
        (commonPathH σ a1 a2 commonDefaultAddr).1.read
          (commonPathH σ a1 a2 commonDefaultAddr).2.2.2)
      = ((commonPathH (σ.alloc []).1 a1 a2 (σ.alloc []).2).1.read
          (commonPathH (σ.alloc []).1 a1 a2 (σ.alloc []).2).2.1,
        (commonPathH (σ.alloc []).1 a1 a2 (σ.alloc []).2).1.read
          (commonPathH (σ.alloc []).1 a1 a2 (σ.alloc []).2).2.2.1,
        (commonPathH (σ.alloc []).1 a1 a2 (σ.alloc []).2).1.read
          (commonPathH (σ.alloc []).1 a1 a2 (σ.alloc []).2).2.2.2)
    rw [cdv, cev, hcom, Store.read_alloc_self,
      Store.read_alloc_lt σ _ a1 hlta1, Store.read_alloc_lt σ _ a2 hlta2]
  · show (commonPathH σ a1 a2 commonDefaultAddr).1.read restDefaultAddr = []
    rw [cdf restDefaultAddr hlt0, hrest]
  · show (commonPathH σ a1 a2 commonDefaultAddr).1.read commonDefaultAddr = []
    rw [cdf commonDefaultAddr hlt1, hcom]
  · exact cdf

/-- Witness for `default_accumulators_unmutated` on the pristine module heap
of `paths.py` and a concrete path. -/
theorem default_accumulators_unmutated_witness :
    pathsInitStore.read restDefaultAddr = [] ∧
    pathsInitStore.read commonDefaultAddr = [] ∧
    restDefaultAddr < pathsInitStore.cells.length ∧
    commonDefaultAddr < pathsInitStore.cells.length ∧
    ((pathSplitDefaultCall pathsInitStore ['a', '/', 'b']).1.read
        (pathSplitDefaultCall pathsInitStore ['a', '/', 'b']).2
      = (pathSplitExplicitCall pathsInitStore ['a', '/', 'b']).1.read
        (pathSplitExplicitCall pathsInitStore ['a', '/', 'b']).2) := by
  refine ⟨by decide, by decide, by decide, by decide, ?_⟩
  exact (default_accumulators_unmutated pathsInitStore ['a', '/', 'b'] 0 1
    (by decide) (by decide) (by decide) (by decide) (by decide) (by decide)).1

end BotwinickUtils
